import Mathlib

/-!
A shallow embedding of the `hedge` URL-shortening service
(`src/main.rs`) together with proofs of its specified properties.

The SQLite table `urls (link TEXT PRIMARY KEY, shortlink TEXT NOT NULL)`
is modelled as a list of rows in insertion order; `SELECT ... WHERE`
with a single-row consumer (`rows.next()?`) is modelled by `List.find?`,
and `INSERT` by appending a row.  The random identifier produced by
`nanoid!(4)` is threaded through the functions as an explicit argument,
so `shorten` takes the id it would use for a fresh link as a parameter.
-/

set_option autoImplicit false
set_option maxRecDepth 8192

namespace Hedge

/-- A row of the `urls` table created by `init_db`:
`link TEXT PRIMARY KEY, shortlink TEXT NOT NULL`. -/
structure Row where
  link : String
  shortlink : String
deriving DecidableEq

/-- The state of the backing store: the rows of `urls` in insertion order. -/
abbrev Store := List Row

/-- The schema constraint declared by `init_db` (`link TEXT PRIMARY KEY`):
no two rows share the same `link`. -/
def schemaInv (conn : Store) : Prop := (conn.map Row.link).Nodup

/-- `fn shorten(url, conn)`: `select * from urls where link = ?1`; if a row
is found return its `shortlink` (column 1), otherwise insert
`(url, new_id)` and return `new_id`.  The id `nanoid!(4)` would generate
is passed in as `newId`. -/
def shorten (url : String) (newId : String) (conn : Store) : String × Store :=
  match conn.find? (fun r => r.link == url) with
  | some row => (row.shortlink, conn)
  | none => (newId, conn ++ [⟨url, newId⟩])

/-- `fn get_link(url, conn)`: `select * from urls where shortlink = ?1`; if a
row is found return its `link` (column 0), otherwise `None`.  The second
component is the store after the call (a `SELECT` never modifies it). -/
def get_link (url : String) (conn : Store) : Option String × Store :=
  match conn.find? (fun r => r.shortlink == url) with
  | some row => (some row.link, conn)
  | none => (none, conn)

/-- An HTTP response: status code, headers in the order the builder adds
them, and the body as a string (empty string for `Body::empty()`). -/
structure Response where
  status : Nat
  headers : List (String × String)
  body : String
deriving DecidableEq

/-- `fn respond_with_shortlink`: `200 OK`, `content-type: text/html`, the
shortlink as the body. -/
def respond_with_shortlink (shortlink : String) : Response :=
  { status := 200, headers := [("content-type", "text/html")], body := shortlink }

/-- `fn respond_with_status`: the given status with an empty body. -/
def respond_with_status (s : Nat) : Response :=
  { status := s, headers := [], body := "" }

/-- The body of a POST request after the decoding the handler performs:
either the pairs produced by `form_urlencoded::parse` (when the
`Content-Type` header names no multipart boundary), or the decoded
multipart fields `(name, text)` in order (when it does).  A multipart
field name is `Option String`, as in `multer::Field::name`. -/
inductive RequestBody where
  | urlencoded (params : List (String × String))
  | multipart (fields : List (Option String × String))

/-- An HTTP request as the handler observes it: the method, and for GET the
URI path. -/
inductive Request where
  | post (body : RequestBody)
  | get (path : String)
  | other

/-- `HashMap::get("shorten")` after `collect::<HashMap<_, _>>()`: with
duplicate keys the last pair wins, so look backwards for the key. -/
def params_get (params : List (String × String)) (key : String) : Option String :=
  (params.reverse.find? (fun p => p.1 == key)).map Prod.snd

/-- `&shortlink[1..]` applied to the URI path: byte-slicing off the leading
`'/'`, which is one byte, i.e. dropping the first character. -/
def stripFirst (s : String) : String := String.mk (s.data.drop 1)

/-- `async fn process_multipart`: look only at the first field; if it is
named `"shorten"` shorten its text, otherwise (or with no field at all)
answer `200 OK` with an empty body. -/
def process_multipart (fields : List (Option String × String)) (newId : String)
    (conn : Store) : Response × Store :=
  match fields with
  | (name, content) :: _ =>
    if name = some "shorten" then
      let res := shorten content newId conn
      (respond_with_shortlink res.1, res.2)
    else
      ({ status := 200, headers := [], body := "" }, conn)
  | [] => ({ status := 200, headers := [], body := "" }, conn)

/-- `async fn shortner_service`: dispatch on the method.  POST decodes the
body (urlencoded when no multipart boundary is present) and shortens the
`"shorten"` field, answering `422` when the urlencoded body lacks it;
GET strips the leading path byte and resolves the candidate, answering
`301` with a `Location` header or `404`; anything else is `404`. -/
def shortner_service (req : Request) (newId : String) (conn : Store) :
    Response × Store :=
  match req with
  | .post (.urlencoded params) =>
    match params_get params "shorten" with
    | some n =>
      let res := shorten n newId conn
      (respond_with_shortlink res.1, res.2)
    | none => (respond_with_status 422, conn)
  | .post (.multipart fields) => process_multipart fields newId conn
  | .get path =>
    let res := get_link (stripFirst path) conn
    match res.1 with
    | some l =>
      ({ status := 301,
         headers := [("Location", l), ("content-type", "text/html")],
         body := "You will be redirected to: " ++ l ++ ". If not, click the link." },
       res.2)
    | none => ({ status := 404, headers := [], body := "" }, res.2)
  | .other => ({ status := 404, headers := [], body := "" }, conn)

/-- The `n` consecutive characters starting at `lo`. -/
def charRange (lo : Char) (n : Nat) : List Char :=
  (List.range n).map (fun i => Char.ofNat (lo.toNat + i))

/-- Modelled from the spec: the 64-symbol URL-safe alphabet of the `nanoid`
crate (the crate is a dependency, not part of this repository): the
characters `_`, `-`, the digits, and the lower- and upper-case letters. -/
def urlAlphabet : List Char :=
  ['_', '-'] ++ charRange '0' 10 ++ charRange 'a' 26 ++ charRange 'A' 26

/-- Modelled from the spec: `nanoid!(size)` draws `size` symbols from
`urlAlphabet`; the random source is an explicit stream `rand` of indices
into the alphabet. -/
def nanoid (size : Nat) (rand : Nat → Fin 64) : String :=
  String.mk ((List.range size).map (fun i => urlAlphabet.getD (rand i) 'a'))

/-- An operation against the store, as issued by the handler: `shorten`
(with the id the generator would produce) or `get_link`. -/
inductive Op where
  | doShorten (url newId : String)
  | doGetLink (s : String)

/-- One store operation's effect on the store. -/
def applyOp (conn : Store) : Op → Store
  | .doShorten url newId => (shorten url newId conn).2
  | .doGetLink s => (get_link s conn).2

/-- The store reached from the freshly initialized (empty) schema by a
sequence of operations. -/
def runOps (ops : List Op) : Store := ops.foldl applyOp []

/-- A fixed index stream for the identifier generator, used to evaluate
`nanoid` on concrete inputs. -/
def zeroRand : Nat → Fin 64 := fun _ => 0

/-! ### Shared lemmas about the store operations -/

/-- If some row of `l` satisfies `p` and every row of `l` satisfying `p` has
link `L`, then `find?` returns a row whose link is `L`. -/
theorem find?_link_of_all (l : List Row) (p : Row → Bool) (L : String)
    (hex : ∃ r ∈ l, p r = true) (hall : ∀ r ∈ l, p r = true → r.link = L) :
    ∃ row, l.find? p = some row ∧ row.link = L := by
  have hs : (l.find? p).isSome := List.find?_isSome.mpr hex
  obtain ⟨row, hrow⟩ := Option.isSome_iff_exists.mp hs
  exact ⟨row, hrow, hall row (List.mem_of_find?_eq_some hrow) (List.find?_some hrow)⟩

/-- Under the schema invariant, the row found by link equality is the unique
row carrying that link. -/
theorem find?_link_eq_of_nodup (l : List Row) (url : String) (r : Row)
    (hnd : (l.map Row.link).Nodup) (hmem : r ∈ l) (hl : r.link = url) :
    l.find? (fun x => x.link == url) = some r := by
  induction l with
  | nil => cases hmem
  | cons a t ih =>
    rw [List.map_cons, List.nodup_cons] at hnd
    rcases List.mem_cons.mp hmem with rfl | hmt
    · exact List.find?_cons_of_pos _ (by simp [hl])
    · have hne : a.link ≠ url := by
        intro hEq
        apply hnd.1
        rw [hEq, ← hl]
        exact List.mem_map_of_mem Row.link hmt
      rw [List.find?_cons_of_neg _ (by simp [hne])]
      exact ih hnd.2 hmt

/-- Under the schema invariant, exactly one row carries a link that is
present in the store. -/
theorem filter_link_length_one (l : List Row) (L : String)
    (hnd : (l.map Row.link).Nodup) (row : Row) (hmem : row ∈ l)
    (hL : row.link = L) :
    (l.filter (fun r => r.link == L)).length = 1 := by
  induction l with
  | nil => cases hmem
  | cons a t ih =>
    rw [List.map_cons, List.nodup_cons] at hnd
    by_cases ha : a.link = L
    · rw [List.filter_cons_of_pos (by simp [ha])]
      have ht : t.filter (fun r => r.link == L) = [] := by
        refine List.filter_eq_nil_iff.mpr (fun r hr => ?_)
        simp only [beq_iff_eq]
        intro hrL
        apply hnd.1
        rw [ha, ← hrL]
        exact List.mem_map_of_mem Row.link hr
      rw [ht]
      rfl
    · have hmt : row ∈ t := by
        rcases List.mem_cons.mp hmem with rfl | h
        · exact absurd hL ha
        · exact h
      rw [List.filter_cons_of_neg (by simp [ha])]
      exact ih hnd.2 hmt

/-- `shorten` preserves the schema invariant: a fresh link is inserted only
when it is absent, so links stay pairwise distinct. -/
theorem shorten_schemaInv (url newId : String) (conn : Store)
    (h : schemaInv conn) : schemaInv (shorten url newId conn).2 := by
  unfold shorten
  cases hfind : conn.find? (fun r => r.link == url) with
  | some row => exact h
  | none =>
    unfold schemaInv at h ⊢
    rw [List.map_append]
    have hnot : url ∉ conn.map Row.link := by
      intro hmem
      obtain ⟨r, hr, hrl⟩ := List.mem_map.mp hmem
      have := List.find?_eq_none.mp hfind r hr
      simp [hrl] at this
    refine List.Nodup.append h (List.nodup_singleton url) ?_
    intro x hx hy
    simp at hy
    exact hnot (hy ▸ hx)

/-- A `SELECT` never modifies the store: `get_link` returns it unchanged. -/
theorem get_link_snd (s : String) (conn : Store) : (get_link s conn).2 = conn := by
  unfold get_link
  cases conn.find? (fun r => r.shortlink == s) <;> rfl

/-- When some row already carries the link, `shorten` takes the found
branch and leaves the store unchanged. -/
theorem shorten_snd_of_exists (conn : Store) (url newId : String)
    (hex : ∃ r ∈ conn, r.link = url) : (shorten url newId conn).2 = conn := by
  have hs : (conn.find? (fun r => r.link == url)).isSome := by
    refine List.find?_isSome.mpr ?_
    obtain ⟨r, hr, hl⟩ := hex
    exact ⟨r, hr, by simp [hl]⟩
  unfold shorten
  cases hfind : conn.find? (fun r => r.link == url) with
  | some row => rfl
  | none => rw [hfind] at hs; cases hs

/-- Under the schema invariant, `shorten` of a link already carried by row
`r` returns `r`'s shortlink and leaves the store unchanged. -/
theorem shorten_of_mem (conn : Store) (url newId : String) (r : Row)
    (hnd : schemaInv conn) (hmem : r ∈ conn) (hl : r.link = url) :
    shorten url newId conn = (r.shortlink, conn) := by
  simp [shorten, find?_link_eq_of_nodup conn url r hnd hmem hl]

/-- When no row's shortlink matches, `get_link` answers `none`. -/
theorem get_link_eq_none (conn : Store) (S : String)
    (h : ∀ r ∈ conn, r.shortlink ≠ S) : get_link S conn = (none, conn) := by
  have hf : conn.find? (fun r => r.shortlink == S) = none :=
    List.find?_eq_none.mpr (fun r hr => by simp [h r hr])
  simp [get_link, hf]

/-- `get_link` as a pair: its second component is always the input store. -/
theorem get_link_eq_pair (s : String) (conn : Store) :
    get_link s conn = ((get_link s conn).1, conn) := by
  unfold get_link
  cases conn.find? (fun r => r.shortlink == s) <;> rfl

/-- The GET branch of the handler on an unresolvable candidate. -/
theorem service_get_404 (path newId : String) (conn : Store)
    (h : get_link (stripFirst path) conn = (none, conn)) :
    shortner_service (.get path) newId conn =
      ({ status := 404, headers := [], body := "" }, conn) := by
  simp [shortner_service, h]

/-- The GET branch of the handler on a resolvable candidate. -/
theorem service_get_301 (path newId L : String) (conn : Store)
    (h : get_link (stripFirst path) conn = (some L, conn)) :
    shortner_service (.get path) newId conn =
      ({ status := 301,
         headers := [("Location", L), ("content-type", "text/html")],
         body := "You will be redirected to: " ++ L ++ ". If not, click the link." },
       conn) := by
  simp [shortner_service, h]

/-! ### The claimed properties -/

/-- C1: round-trip.  If `shorten L` yields the id `S` on a store in which
`S` is not already assigned to another link, then `get_link S` on the
resulting store answers `some L`. -/
theorem shorten_get_link_roundtrip (conn : Store) (L newId S : String)
    (conn2 : Store) (hrun : shorten L newId conn = (S, conn2))
    (hfree : ∀ r ∈ conn, r.shortlink = S → r.link = L) :
    (get_link S conn2).1 = some L := by
  unfold shorten at hrun
  cases hfind : conn.find? (fun r => r.link == L) with
  | some row =>
    rw [hfind, Prod.mk.injEq] at hrun
    obtain ⟨rfl, rfl⟩ := hrun
    have hmem : row ∈ conn := List.mem_of_find?_eq_some hfind
    obtain ⟨row2, hfound, hlink⟩ :=
      find?_link_of_all conn (fun r => r.shortlink == row.shortlink) L
        ⟨row, hmem, by simp⟩
        (fun r hr hpr => hfree r hr (beq_iff_eq.mp hpr))
    simp [get_link, hfound, hlink]
  | none =>
    rw [hfind, Prod.mk.injEq] at hrun
    obtain ⟨rfl, rfl⟩ := hrun
    obtain ⟨row2, hfound, hlink⟩ :=
      find?_link_of_all (conn ++ [⟨L, newId⟩]) (fun r => r.shortlink == newId) L
        ⟨⟨L, newId⟩, by simp, by simp⟩
        (fun r hr hpr => by
          rcases List.mem_append.mp hr with hc | hs
          · exact hfree r hc (beq_iff_eq.mp hpr)
          · simp at hs
            rw [hs])
    simp [get_link, hfound, hlink]

/-- C1 witness: shortening `https://example.com` with fresh id `abcd` on
the empty store, then resolving `abcd`, gives back the link. -/
theorem shorten_get_link_roundtrip_witness :
    (get_link "abcd" [⟨"https://example.com", "abcd"⟩]).1 =
      some "https://example.com" :=
  shorten_get_link_roundtrip [] "https://example.com" "abcd" "abcd"
    [⟨"https://example.com", "abcd"⟩] (by decide) (by decide)

/-- C2: idempotence of lookup-or-create.  On a store satisfying the schema
invariant, shortening the same link twice returns the same id both times,
the second call does not change the store, and exactly one row for the
link exists afterwards. -/
theorem shorten_twice_same_id (conn : Store) (L id1 id2 : String)
    (hinv : schemaInv conn) :
    (shorten L id2 (shorten L id1 conn).2).1 = (shorten L id1 conn).1 ∧
    (shorten L id2 (shorten L id1 conn).2).2 = (shorten L id1 conn).2 ∧
    ((shorten L id2 (shorten L id1 conn).2).2.filter
      (fun r => r.link == L)).length = 1 := by
  cases hfind : conn.find? (fun r => r.link == L) with
  | some row =>
    have h1 : shorten L id1 conn = (row.shortlink, conn) := by
      simp [shorten, hfind]
    have h2 : shorten L id2 conn = (row.shortlink, conn) := by
      simp [shorten, hfind]
    rw [h1, h2]
    exact ⟨rfl, rfl,
      filter_link_length_one conn L hinv row (List.mem_of_find?_eq_some hfind)
        (by simpa using List.find?_some hfind)⟩
  | none =>
    have h1 : shorten L id1 conn = (id1, conn ++ [⟨L, id1⟩]) := by
      simp [shorten, hfind]
    have hfind2 : (conn ++ [(⟨L, id1⟩ : Row)]).find? (fun r => r.link == L) =
        some (⟨L, id1⟩ : Row) := by
      rw [List.find?_append, hfind]
      simp
    have h2 : shorten L id2 (conn ++ [⟨L, id1⟩]) = (id1, conn ++ [⟨L, id1⟩]) := by
      simp [shorten, hfind2]
    rw [h1, h2]
    refine ⟨rfl, rfl, ?_⟩
    rw [List.filter_append,
      List.filter_eq_nil_iff.mpr
        (fun r hr => by simp [List.find?_eq_none.mp hfind r hr])]
    simp

/-- C2 witness: shortening `https://example.com` twice on the empty store. -/
theorem shorten_twice_same_id_witness :
    (shorten "https://example.com" "wxyz"
      (shorten "https://example.com" "abcd" []).2).1 =
      (shorten "https://example.com" "abcd" []).1 ∧
    (shorten "https://example.com" "wxyz"
      (shorten "https://example.com" "abcd" []).2).2 =
      (shorten "https://example.com" "abcd" []).2 ∧
    ((shorten "https://example.com" "wxyz"
      (shorten "https://example.com" "abcd" []).2).2.filter
        (fun r => r.link == "https://example.com")).length = 1 :=
  shorten_twice_same_id [] "https://example.com" "abcd" "wxyz" List.nodup_nil

/-- C3: uniqueness invariant.  Every store reachable from the fresh schema
by `shorten` and `get_link` operations has pairwise-distinct links, and
resubmitting a link already carried by some row returns that row's
shortlink without changing the store. -/
theorem reachable_store_links_unique (ops : List Op) :
    schemaInv (runOps ops) ∧
    ∀ url newId r, r ∈ runOps ops → r.link = url →
      shorten url newId (runOps ops) = (r.shortlink, runOps ops) := by
  have haux : ∀ (os : List Op) (c : Store), schemaInv c →
      schemaInv (os.foldl applyOp c) := by
    intro os
    induction os with
    | nil => exact fun c h => h
    | cons o t ih =>
      intro c h
      apply ih
      cases o with
      | doShorten url newId => exact shorten_schemaInv url newId c h
      | doGetLink s =>
        show schemaInv (get_link s c).2
        rw [get_link_snd]
        exact h
  have hinv : schemaInv (runOps ops) := haux ops [] List.nodup_nil
  exact ⟨hinv, fun url newId r hmem hl =>
    shorten_of_mem (runOps ops) url newId r hinv hmem hl⟩

/-- C3 witness: after one shorten of `a` with id `x` from the fresh schema,
the links are unique and resubmitting `a` returns `x` with the store
unchanged. -/
theorem reachable_store_links_unique_witness :
    schemaInv (runOps [Op.doShorten "a" "x"]) ∧
    shorten "a" "y" (runOps [Op.doShorten "a" "x"]) =
      ("x", runOps [Op.doShorten "a" "x"]) := by
  have h := reachable_store_links_unique [Op.doShorten "a" "x"]
  exact ⟨h.1, h.2 "a" "y" ⟨"a", "x"⟩ (by decide) rfl⟩

/-- C4: a POST whose urlencoded body has no `"shorten"` key is answered
with `422 Unprocessable Entity`, an empty body, and an unchanged store. -/
theorem urlencoded_missing_shorten_422 (params : List (String × String))
    (newId : String) (conn : Store) (h : ∀ p ∈ params, p.1 ≠ "shorten") :
    shortner_service (.post (.urlencoded params)) newId conn =
      ({ status := 422, headers := [], body := "" }, conn) := by
  have hg : params_get params "shorten" = none := by
    unfold params_get
    rw [List.find?_eq_none.mpr
      (fun p hp => by simp [h p (List.mem_reverse.mp hp)])]
    rfl
  simp [shortner_service, hg, respond_with_status]

/-- C4 witness: a body holding only the key `other`. -/
theorem urlencoded_missing_shorten_422_witness :
    shortner_service (.post (.urlencoded [("other", "x")])) "zzzz" [] =
      ({ status := 422, headers := [], body := "" }, []) :=
  urlencoded_missing_shorten_422 [("other", "x")] "zzzz" [] (by decide)

/-- C5: when no row's shortlink equals `S`, `get_link S` answers `none` and
a GET for the path `/S` is answered `404 Not Found` with an empty body. -/
theorem unknown_shortlink_404 (conn : Store) (S newId : String)
    (h : ∀ r ∈ conn, r.shortlink ≠ S) :
    (get_link S conn).1 = none ∧
    shortner_service (.get (String.mk ('/' :: S.data))) newId conn =
      ({ status := 404, headers := [], body := "" }, conn) := by
  have hg : get_link S conn = (none, conn) := get_link_eq_none conn S h
  have hstrip : stripFirst (String.mk ('/' :: S.data)) = S := rfl
  exact ⟨by rw [hg], service_get_404 _ newId conn (by rw [hstrip, hg])⟩

/-- C5 witness: resolving `zzzz` on the empty store. -/
theorem unknown_shortlink_404_witness :
    (get_link "zzzz" []).1 = none ∧
    shortner_service (.get (String.mk ('/' :: "zzzz".data))) "n" [] =
      ({ status := 404, headers := [], body := "" }, []) :=
  unknown_shortlink_404 [] "zzzz" "n" (by decide)

/-- C6 counterexample: for the store mapping `abcd` to
`https://example.com`, the GET response for `/abcd` does carry status
`301` and the `Location` header, but its body holds no `<a` and no
`href`, hence no clickable HTML hyperlink to the destination. -/
theorem redirect_body_no_hyperlink :
    (shortner_service (.get "/abcd") "zzzz"
      [⟨"https://example.com", "abcd"⟩]).1.status = 301 ∧
    ("Location", "https://example.com") ∈
      (shortner_service (.get "/abcd") "zzzz"
        [⟨"https://example.com", "abcd"⟩]).1.headers ∧
    ¬ ("<a".data <:+:
      (shortner_service (.get "/abcd") "zzzz"
        [⟨"https://example.com", "abcd"⟩]).1.body.data) ∧
    ¬ ("href".data <:+:
      (shortner_service (.get "/abcd") "zzzz"
        [⟨"https://example.com", "abcd"⟩]).1.body.data) := by
  decide

/-- C6 as amended: a GET whose candidate resolves to `L` is answered `301
Moved Permanently` with `Location: L`, `content-type: text/html`, and a
plain-text body announcing the redirect that contains `L` verbatim (but
no HTML anchor element). -/
theorem redirect_301_location_body (conn : Store) (path L newId : String)
    (h : (get_link (stripFirst path) conn).1 = some L) :
    shortner_service (.get path) newId conn =
      ({ status := 301,
         headers := [("Location", L), ("content-type", "text/html")],
         body := "You will be redirected to: " ++ L ++
           ". If not, click the link." }, conn) := by
  have hsnd := get_link_snd (stripFirst path) conn
  refine service_get_301 path newId L conn ?_
  cases hg : get_link (stripFirst path) conn with
  | mk a b =>
    rw [hg] at h hsnd
    simp only at h hsnd
    rw [h, hsnd]

/-- C6 amended witness: the store mapping `abcd` to `https://example.com`. -/
theorem redirect_301_location_body_witness :
    shortner_service (.get "/abcd") "zzzz" [⟨"https://example.com", "abcd"⟩] =
      ({ status := 301,
         headers := [("Location", "https://example.com"),
                     ("content-type", "text/html")],
         body := "You will be redirected to: " ++ "https://example.com" ++
           ". If not, click the link." },
       [⟨"https://example.com", "abcd"⟩]) :=
  redirect_301_location_body [⟨"https://example.com", "abcd"⟩] "/abcd"
    "https://example.com" "zzzz" (by decide)

/-- C7: a POST with a well-formed multipart body whose first field is not
named `"shorten"` (or that has no field at all) is answered `200 OK`
with an empty body and an unchanged store. -/
theorem multipart_no_shorten_field_200 (fields : List (Option String × String))
    (newId : String) (conn : Store)
    (h : ∀ f, fields.head? = some f → f.1 ≠ some "shorten") :
    shortner_service (.post (.multipart fields)) newId conn =
      ({ status := 200, headers := [], body := "" }, conn) := by
  cases fields with
  | nil => rfl
  | cons f t =>
    have hf := h f rfl
    obtain ⟨name, content⟩ := f
    simp only at hf
    simp [shortner_service, process_multipart, hf]

/-- C7 witness: a multipart body whose only field is named `other`. -/
theorem multipart_no_shorten_field_200_witness :
    shortner_service (.post (.multipart [(some "other", "x")])) "zzzz" [] =
      ({ status := 200, headers := [], body := "" }, []) :=
  multipart_no_shorten_field_200 [(some "other", "x")] "zzzz" []
    (fun f hf => by
      simp at hf
      rw [← hf]
      decide)

/-- C8: every identifier produced by the generator is exactly 4 characters
long and drawn from the 64-symbol URL-safe alphabet, and `shorten` of a
fresh link stores exactly the generated id. -/
theorem nanoid_length_four_urlsafe (rand : Nat → Fin 64) (L : String)
    (conn : Store) (hfresh : ∀ r ∈ conn, r.link ≠ L) :
    (nanoid 4 rand).length = 4 ∧
    ((nanoid 4 rand).data.all (fun c => urlAlphabet.contains c)) = true ∧
    urlAlphabet.length = 64 ∧
    shorten L (nanoid 4 rand) conn =
      (nanoid 4 rand, conn ++ [⟨L, nanoid 4 rand⟩]) := by
  refine ⟨rfl, ?_, by decide, ?_⟩
  · have key : ∀ i : Fin 64,
        urlAlphabet.contains (urlAlphabet.getD i 'a') = true := by decide
    refine List.all_eq_true.mpr ?_
    intro c hc
    simp only [nanoid, List.mem_map, List.mem_range] at hc
    obtain ⟨i, _, rfl⟩ := hc
    exact key (rand i)
  · have hfind : conn.find? (fun r => r.link == L) = none :=
      List.find?_eq_none.mpr (fun r hr => by simp [hfresh r hr])
    simp [shorten, hfind]

/-- C8 witness: the generator evaluated on the constant-zero index stream
with the fresh link `a` on the empty store. -/
theorem nanoid_length_four_urlsafe_witness :
    (nanoid 4 zeroRand).length = 4 ∧
    ((nanoid 4 zeroRand).data.all (fun c => urlAlphabet.contains c)) = true ∧
    urlAlphabet.length = 64 ∧
    shorten "a" (nanoid 4 zeroRand) [] =
      (nanoid 4 zeroRand, [] ++ [⟨"a", nanoid 4 zeroRand⟩]) :=
  nanoid_length_four_urlsafe zeroRand "a" [] (by decide)

/-- C9: the candidate a GET looks up is the request path with exactly its
first character removed; in particular `/` looks up the empty string
(404 when no shortlink is empty) and `/a/b` looks up `a/b` verbatim, and
a GET is answered `404` exactly when that candidate resolves to nothing. -/
theorem get_strips_first_char :
    (∀ (c : Char) (cs : List Char),
      stripFirst (String.mk (c :: cs)) = String.mk cs) ∧
    stripFirst "/" = "" ∧
    stripFirst "/a/b" = "a/b" ∧
    (∀ (conn : Store) (newId : String), (∀ r ∈ conn, r.shortlink ≠ "") →
      shortner_service (.get "/") newId conn =
        ({ status := 404, headers := [], body := "" }, conn)) ∧
    (∀ (path newId : String) (conn : Store),
      ((get_link (stripFirst path) conn).1 = none ↔
        (shortner_service (.get path) newId conn).1.status = 404)) := by
  refine ⟨fun c cs => rfl, by decide, by decide, ?_, ?_⟩
  · intro conn newId h
    refine service_get_404 "/" newId conn ?_
    have hs : stripFirst "/" = "" := by decide
    rw [hs]
    exact get_link_eq_none conn "" h
  · intro path newId conn
    constructor
    · intro hnone
      have hg : get_link (stripFirst path) conn = (none, conn) := by
        rw [get_link_eq_pair, hnone]
      rw [service_get_404 path newId conn hg]
    · intro h404
      cases hgl : (get_link (stripFirst path) conn).1 with
      | none => rfl
      | some l =>
        have hg : get_link (stripFirst path) conn = (some l, conn) := by
          rw [get_link_eq_pair, hgl]
        rw [service_get_301 path newId l conn hg] at h404
        simp at h404

/-- C9 witness: the characterization evaluated on the paths `/` and
`/a/b` with one-row stores. -/
theorem get_strips_first_char_witness :
    stripFirst (String.mk ('x' :: "yz".data)) = String.mk "yz".data ∧
    shortner_service (.get "/") "n" [⟨"l", "s"⟩] =
      ({ status := 404, headers := [], body := "" }, [⟨"l", "s"⟩]) ∧
    ((get_link (stripFirst "/a/b") [⟨"L", "a/b"⟩]).1 = none ↔
      (shortner_service (.get "/a/b") "n" [⟨"L", "a/b"⟩]).1.status = 404) := by
  have h := get_strips_first_char
  exact ⟨h.1 'x' "yz".data,
    h.2.2.2.1 [⟨"l", "s"⟩] "n" (by decide),
    h.2.2.2.2 "/a/b" "n" [⟨"L", "a/b"⟩]⟩

/-- C10: reads and repeat submissions never change the store: `get_link`
always returns the store unchanged, and `shorten` returns it unchanged
whenever some row already carries the submitted link. -/
theorem reads_and_repeats_preserve_store :
    (∀ (s : String) (conn : Store), (get_link s conn).2 = conn) ∧
    (∀ (L newId : String) (conn : Store) (r : Row), r ∈ conn → r.link = L →
      (shorten L newId conn).2 = conn) :=
  ⟨get_link_snd, fun L newId conn r hmem hl =>
    shorten_snd_of_exists conn L newId ⟨r, hmem, hl⟩⟩

/-- C10 witness: a one-row store, read by shortlink and resubmitted. -/
theorem reads_and_repeats_preserve_store_witness :
    (get_link "s" [⟨"l", "s"⟩]).2 = [⟨"l", "s"⟩] ∧
    (shorten "l" "t" [⟨"l", "s"⟩]).2 = [⟨"l", "s"⟩] :=
  ⟨reads_and_repeats_preserve_store.1 "s" [⟨"l", "s"⟩],
   reads_and_repeats_preserve_store.2 "l" "t" [⟨"l", "s"⟩] ⟨"l", "s"⟩
     (by decide) rfl⟩

end Hedge
